import Mathlib

/-!
Verification of the AIFlowForge workflow execution engine
(`backend/services/workflow_engine.py`, `backend/routes/executions.py`,
data model in `backend/models.py`).

The Python code is shallowly embedded: Python `dict[str, Any]` values become
an inductive `Value` type with insertion-ordered association lists for
dictionaries, `datetime.utcnow()` becomes a logical clock threaded through the
computation, raising an exception becomes `Except.error` carrying `str(e)`,
and the engine's `while execution_queue:` loop becomes a fuel-indexed
iteration of a single-step function.
-/

set_option linter.unusedVariables false

namespace AIFlowForge

/-- Python-style values as stored in the JSON-like dictionaries the engine passes
around (`Dict[str, Any]` in `backend/models.py` / `workflow_engine.py`). -/
inductive Value where
  | vstr : String → Value
  | vint : Int → Value
  | vbool : Bool → Value
  | vnone : Value
  | vlist : List Value → Value
  | vdict : List (String × Value) → Value
deriving Repr

/-- A Python `dict[str, Any]`: an insertion-ordered association list
(keys are unique in every dictionary the code builds). -/
abbrev Obj := List (String × Value)

/-- Python `d.get(k)` / `d[k]`: the value bound to `key`, if any. -/
def lookupStr {α : Type} : List (String × α) → String → Option α
  | [], _ => none
  | (k, v) :: rest, key => if k = key then some v else lookupStr rest key

/-- Python `d[k] = v`: replace the first binding of `key` in place, or append a new
binding at the end (Python dicts preserve insertion order). -/
def setStr {α : Type} : List (String × α) → String → α → List (String × α)
  | [], key, v => [(key, v)]
  | (k, w) :: rest, key, v =>
      if k = key then (k, v) :: rest else (k, w) :: setStr rest key v

/-- Python `d.get(k, dflt)`. -/
def objGetD (d : Obj) (key : String) (dflt : Value) : Value :=
  (lookupStr d key).getD dflt

/-- Python `d1.update(d2)`: write every binding of `d2` into `d1`, later bindings
overwriting colliding keys. -/
def objUpdate (d1 d2 : Obj) : Obj :=
  d2.foldl (fun acc kv => setStr acc kv.1 kv.2) d1

/-- Python `x in l` for a list of strings. -/
def memStr : List String → String → Bool
  | [], _ => false
  | y :: ys, x => if y = x then true else memStr ys x

/-- Python `len(v)`: defined for `str`, `list` and `dict`; other types raise
`TypeError`, modelled by `none`. -/
def pyLen : Value → Option Nat
  | .vstr s => some s.length
  | .vlist l => some l.length
  | .vdict d => some d.length
  | _ => none

/-- Python type name of a value, used in the `TypeError` message of `len`. -/
def pyTypeName : Value → String
  | .vstr _ => "str"
  | .vint _ => "int"
  | .vbool _ => "bool"
  | .vnone => "NoneType"
  | .vlist _ => "list"
  | .vdict _ => "dict"

/-- Message of the `KeyError` raised by `nodes_by_id[current_node_id]` for an
undeclared node id (the Python message quotes the key; the quotes are elided here). -/
def keyError (k : String) : String := "KeyError: " ++ k

/-- Timestamps: `datetime.utcnow()` is modelled by a logical clock; each call
returns the current tick and advances the clock, so successive readings increase. -/
def isoformat (t : Nat) : String := "utc-" ++ toString t

/-- Data model `models.WorkflowNode`. -/
structure WorkflowNode where
  id : String
  type : String
  config : Obj
deriving Repr

/-- Data model `models.WorkflowEdge` (`from`/`to` are aliased to
`from_node`/`to_node` in the source). -/
structure WorkflowEdge where
  from_node : String
  to_node : String
  condition : Option String
deriving Repr

/-- Data model `models.WorkflowDefinition`. -/
structure WorkflowDefinition where
  nodes : List WorkflowNode
  edges : List WorkflowEdge
deriving Repr

/-- The fields of `models.Workflow` that the engine reads: `id` and `definition`. -/
structure Workflow where
  id : String
  definition : WorkflowDefinition
deriving Repr

/-- Data model `models.ExecutionStatus`. -/
inductive ExecutionStatus where
  | pending
  | running
  | success
  | failed
  | cancelled
deriving DecidableEq, Repr

/-- Data model `models.Execution` (timestamps are logical-clock readings). -/
structure Execution where
  id : String
  workflow_id : String
  status : ExecutionStatus
  input : Obj
  output : Option Obj
  error : Option String
  started_at : Option Nat
  completed_at : Option Nat
  executed_by : Option String
deriving Repr

/-- A node executor, `NodeExecutor.execute(node, input_data)`. A raised exception
is modelled by `Except.error` carrying `str(e)`; the `Nat` argument and the `Nat`
in the result are the logical clock before and after the call. -/
abbrev Executor := WorkflowNode → Obj → Nat → Except String (Obj × Nat)

/-- Source `TriggerExecutor.execute`. -/
def triggerExecutor : Executor := fun node input_data t =>
  match objGetD node.config "type" (.vstr "manual") with
  | .vstr "schedule" =>
      .ok ([("trigger_type", .vstr "schedule"),
            ("triggered_at", .vstr (isoformat t)),
            ("cron", objGetD node.config "cron" .vnone)], t + 1)
  | .vstr "webhook" =>
      .ok ([("trigger_type", .vstr "webhook"),
            ("triggered_at", .vstr (isoformat t)),
            ("payload", objGetD input_data "webhook_payload" (.vdict []))], t + 1)
  | _ =>
      .ok ([("trigger_type", .vstr "manual"),
            ("triggered_at", .vstr (isoformat t)),
            ("user_input", .vdict input_data)], t + 1)

/-- Source `ConnectorExecutor.execute`. -/
def connectorExecutor : Executor := fun node input_data t =>
  .ok ([("connector_id", objGetD node.config "connector_id" .vnone),
        ("action", objGetD node.config "action" (.vstr "fetch")),
        ("result", .vdict
          [("records_fetched", .vint 15),
           ("data", .vlist ((List.range 15).map (fun i =>
              .vdict [("id", .vint i), ("amount", .vint (1000 + i * 100))])))]),
        ("executed_at", .vstr (isoformat t))], t + 1)

/-- Source `AgentExecutor.execute`. The only place it can raise is
`len(input_data.get("data", []))`, a `TypeError` when the value bound to
`"data"` has no length. -/
def agentExecutor : Executor := fun node input_data t =>
  match pyLen (objGetD input_data "data" (.vlist [])) with
  | none =>
      .error ("object of type " ++ pyTypeName (objGetD input_data "data" (.vlist []))
              ++ " has no len()")
  | some n =>
      .ok ([("agent_id", objGetD node.config "agent_id" .vnone),
            ("processed_data", .vdict input_data),
            ("analysis", .vdict
              [("total_items", .vint n),
               ("categorized", .vbool true),
               ("anomalies_found", .vint 2)]),
            ("executed_at", .vstr (isoformat t))], t + 1)

/-- Source `ActionExecutor.execute`. -/
def actionExecutor : Executor := fun node input_data t =>
  match objGetD node.config "type" (.vstr "email") with
  | .vstr "email" =>
      .ok ([("action_type", .vstr "email"),
            ("recipient", objGetD node.config "recipient" .vnone),
            ("subject", objGetD node.config "subject" (.vstr "Workflow Result")),
            ("sent", .vbool true),
            ("sent_at", .vstr (isoformat t))], t + 1)
  | action_type =>
      .ok ([("action_type", action_type),
            ("result", .vstr "Action executed successfully"),
            ("executed_at", .vstr (isoformat t))], t + 1)

/-- Source `ConditionExecutor.execute`: the configured expression is never parsed
or evaluated; `result` is the hard-coded `True`. -/
def conditionExecutor : Executor := fun node input_data t =>
  .ok ([("condition", objGetD node.config "condition" (.vstr "true")),
        ("result", .vbool true),
        ("evaluated_at", .vstr (isoformat t))], t + 1)

/-- The executor registry built in `WorkflowEngine.__init__`. -/
def builtinExecutors : String → Option Executor
  | "trigger" => some triggerExecutor
  | "connector" => some connectorExecutor
  | "agent" => some agentExecutor
  | "action" => some actionExecutor
  | "condition" => some conditionExecutor
  | _ => none

/-- Source `nodes_by_id = {node.id: node for node in nodes}`: a dict comprehension
keeps the LAST node carrying a given id, hence the search over the reversed list. -/
def nodesById (wf : WorkflowDefinition) (nid : String) : Option WorkflowNode :=
  wf.nodes.reverse.find? (fun n => n.id == nid)

/-- Source `edges_by_from[current_node_id]`: the edges leaving a node, in
declaration order. -/
def edgesFrom (wf : WorkflowDefinition) (nid : String) : List WorkflowEdge :=
  wf.edges.filter (fun e => e.from_node == nid)

/-- Source `incoming_edges = set(edge.to_node for edge in edges)`. -/
def incomingIds (wf : WorkflowDefinition) : List String :=
  wf.edges.map WorkflowEdge.to_node

/-- Source `entry_nodes`: ids of nodes with no incoming edge, in node order. -/
def entryNodes (wf : WorkflowDefinition) : List String :=
  (wf.nodes.filter (fun n => !(memStr (incomingIds wf) n.id))).map WorkflowNode.id

/-- Source `dependencies = [edge.from_node for edge in edges if edge.to_node == current]`:
the direct predecessors of a node, in EDGE DECLARATION order (not sorted by id). -/
def dependenciesOf (wf : WorkflowDefinition) (nid : String) : List String :=
  (wf.edges.filter (fun e => e.to_node == nid)).map WorkflowEdge.from_node

/-- The local state of the `while execution_queue:` loop in
`WorkflowEngine._execute_workflow_async`. `invoked` is instrumentation recording,
in order, each node id on which an executor is actually called; it influences
nothing else. -/
structure LoopState where
  queue : List String
  completed : List String
  node_outputs : List (String × Obj)
  invoked : List String
  current_node : Option String
  clock : Nat
deriving Repr

/-- Outcome of one iteration of the scheduling loop. -/
inductive StepResult where
  | next : LoopState → StepResult
  | done : LoopState → StepResult
  | failed : String → LoopState → StepResult
deriving Repr

/-- Source lines 215-218: `node_input = execution.input.copy()`, then for each
dependency IN ORDER, `node_input.update(node_outputs[dep])` if present. -/
def nodeInputFor (input : Obj) (node_outputs : List (String × Obj))
    (dependencies : List String) : Obj :=
  dependencies.foldl (fun acc dep =>
    match lookupStr node_outputs dep with
    | some out => objUpdate acc out
    | none => acc) input

/-- One iteration of the loop body of `_execute_workflow_async` (lines 198-233):
pop the queue head; skip it if already completed; requeue it if a dependency is
unsatisfied; otherwise look the node up, dispatch its executor, record the output
and enqueue the targets of its outgoing edges. Any exception aborts the loop. -/
def stepLoop (registry : String → Option Executor) (wf : WorkflowDefinition)
    (input : Obj) (s : LoopState) : StepResult :=
  match s.queue with
  | [] => .done s
  | current :: rest =>
    if memStr s.completed current then
      .next { s with queue := rest }
    else
      if (dependenciesOf wf current).all (fun dep => memStr s.completed dep) then
        match nodesById wf current with
        | none => .failed (keyError current) { s with queue := rest }
        | some node =>
          match registry node.type with
          | none =>
              .failed ("No executor found for node type: " ++ node.type)
                { s with queue := rest, current_node := some current }
          | some ex =>
            match ex node (nodeInputFor input s.node_outputs (dependenciesOf wf current)) s.clock with
            | .error msg =>
                .failed msg
                  { s with queue := rest, current_node := some current,
                           invoked := s.invoked ++ [current] }
            | .ok (output, t) =>
                .next { queue := rest ++ (edgesFrom wf current).map WorkflowEdge.to_node,
                        completed := s.completed ++ [current],
                        node_outputs := setStr s.node_outputs current output,
                        invoked := s.invoked ++ [current],
                        current_node := some current,
                        clock := t }
      else
        .next { s with queue := rest ++ [current] }

/-- Result of the whole scheduling loop: normal exit or a caught exception. -/
inductive RunResult where
  | ok : LoopState → RunResult
  | failed : String → LoopState → RunResult
deriving Repr

/-- Fuel-indexed iteration of the scheduling loop; `none` means the loop has not
finished within `fuel` iterations. -/
def runLoop (registry : String → Option Executor) (wf : WorkflowDefinition)
    (input : Obj) : Nat → LoopState → Option RunResult
  | 0, _ => none
  | fuel + 1, s =>
    match stepLoop registry wf input s with
    | .done sf => some (.ok sf)
    | .failed msg sf => some (.failed msg sf)
    | .next sn => runLoop registry wf input fuel sn

/-- The loop state at entry of `_execute_workflow_async`:
`execution_queue = entry_nodes.copy()`, everything else empty. -/
def initLoopState (wf : WorkflowDefinition) (clock : Nat) : LoopState :=
  { queue := entryNodes wf, completed := [], node_outputs := [], invoked := [],
    current_node := none, clock := clock }

/-- The epilogue of `_execute_workflow_async` (lines 235-248): on normal exit the
record is UNCONDITIONALLY set to SUCCESS with the collected outputs; on a caught
exception it is UNCONDITIONALLY set to FAILED with `error = str(e)`. Neither
branch inspects the record's current status. -/
def finishExecution (e : Execution) (r : RunResult) : Execution :=
  match r with
  | .ok s =>
      { e with status := .success,
               output := some
                 [("node_outputs", Value.vdict (s.node_outputs.map (fun p => (p.1, Value.vdict p.2)))),
                  ("completed_nodes", Value.vlist (s.completed.map Value.vstr)),
                  ("execution_summary", Value.vstr "Workflow completed successfully")],
               completed_at := some s.clock }
  | .failed msg s =>
      { e with status := .failed, error := some msg, completed_at := some s.clock }

/-- The whole background task `_execute_workflow_async` on a given execution
record: run the loop from the entry nodes, then write the terminal status. -/
def runWorkflowAsync (registry : String → Option Executor) (e : Execution)
    (wf : WorkflowDefinition) (fuel clock : Nat) : Option Execution :=
  (runLoop registry wf e.input fuel (initLoopState wf clock)).map (finishExecution e)

/-- Per-execution entry of `WorkflowEngine.running_executions`. -/
structure ExecState where
  execution : Execution
  workflow : Workflow
  current_node : Option String
  node_outputs : List (String × Obj)
  completed_nodes : List String

/-- The engine's mutable state: the `running_executions` table. -/
structure EngineState where
  running_executions : List (String × ExecState)

/-- An engine with no executions. -/
def emptyEngine : EngineState := { running_executions := [] }

/-- Source `WorkflowEngine.execute_workflow` (lines 142-171): no validation of any
kind; a record with status RUNNING is created and stored, the background task is
started, and the generated id is returned synchronously. The generated uuid and
the `utcnow()` reading are passed in as `execution_id` and `now`. -/
def executeWorkflow (engine : EngineState) (workflow : Workflow) (input_data : Obj)
    (execution_id : String) (now : Nat) : String × EngineState :=
  let execution : Execution :=
    { id := execution_id, workflow_id := workflow.id, status := .running,
      input := input_data, output := none, error := none,
      started_at := some now, completed_at := none, executed_by := none }
  (execution_id,
   { running_executions :=
       setStr engine.running_executions execution_id
         { execution := execution, workflow := workflow, current_node := none,
           node_outputs := [], completed_nodes := [] } })

/-- The record-level part of `WorkflowEngine.cancel_execution` (lines 281-288):
refuse if the status is terminal, otherwise set CANCELLED, stamp `completed_at`
and set the error message. -/
def cancelRecord (e : Execution) (now : Nat) : Bool × Execution :=
  if e.status = .success ∨ e.status = .failed ∨ e.status = .cancelled then
    (false, e)
  else
    (true, { e with status := .cancelled, completed_at := some now,
                    error := some "Execution cancelled by user" })

/-- Source `WorkflowEngine.cancel_execution` (lines 273-288): unknown ids yield
`False` with the table untouched; otherwise the record-level cancellation runs. -/
def cancelExecution (engine : EngineState) (execution_id : String) (now : Nat) :
    Bool × EngineState :=
  match lookupStr engine.running_executions execution_id with
  | none => (false, engine)
  | some st =>
      let be := cancelRecord st.execution now
      (be.1,
       { running_executions :=
           setStr engine.running_executions execution_id { st with execution := be.2 } })

/-- Result of the HTTP cancel endpoint in `routes/executions.py`. -/
inductive RouteCancelResult where
  | ok : Obj → RouteCancelResult
  | httpError : Nat → String → RouteCancelResult
deriving Repr

/-- Source `routes/executions.py::cancel_execution` (lines 97-127), acting on the
route module's `executions_db`. -/
def routeCancelExecution (db : List (String × Execution)) (execution_id : String)
    (now : Nat) : RouteCancelResult × List (String × Execution) :=
  match lookupStr db execution_id with
  | none => (.httpError 404 "Execution not found", db)
  | some e =>
    if e.status = .pending ∨ e.status = .running then
      (.ok [("execution_id", .vstr execution_id),
            ("status", .vstr "cancelled"),
            ("message", .vstr "Execution cancelled successfully")],
       setStr db execution_id
         { e with status := .cancelled, completed_at := some now,
                  error := some "Execution cancelled by user" })
    else
      (.httpError 400 "Cannot cancel execution that is not pending or running", db)

/-- Modelled from the spec: the failure scenario in spec section 8 stubs the
`agent` executor to raise `ExecutionError("LLM unavailable")`. The real
agent-to-LLM delegation is missing from the source (`AgentExecutor.execute` is a
TODO stub that cannot fail that way), so this executor follows the spec's words. -/
def raisingAgentExecutor : Executor := fun _ _ _ => .error "LLM unavailable"

/-- The builtin registry with the `agent` slot replaced by the spec scenario's
raising executor. -/
def scenarioRegistry : String → Option Executor
  | "agent" => some raisingAgentExecutor
  | ty => builtinExecutors ty

/-- The linear chain `trigger → connector → agent → action` of the spec scenarios. -/
def chainWf : WorkflowDefinition :=
  { nodes := [{ id := "trigger", type := "trigger", config := [] },
              { id := "connector", type := "connector", config := [] },
              { id := "agent", type := "agent", config := [] },
              { id := "action", type := "action", config := [] }],
    edges := [{ from_node := "trigger", to_node := "connector", condition := none },
              { from_node := "connector", to_node := "agent", condition := none },
              { from_node := "agent", to_node := "action", condition := none }] }

/-- Writing a key and reading it back yields the written value. -/
lemma lookupStr_setStr {α : Type} (l : List (String × α)) (k : String) (v : α) :
    lookupStr (setStr l k v) k = some v := by
  induction l with
  | nil => simp [setStr, lookupStr]
  | cons hd tl ih =>
      obtain ⟨k1, v1⟩ := hd
      by_cases h : k1 = k
      · simp [setStr, h, lookupStr]
      · simp [setStr, h, lookupStr, ih]

/-- A cyclic workflow definition: `T → A`, `A → B`, `B → A`; the cycle `A, B` is
reachable from the entry node `T`. -/
def cyclicWf : WorkflowDefinition :=
  { nodes := [{ id := "T", type := "trigger", config := [] },
              { id := "A", type := "trigger", config := [] },
              { id := "B", type := "trigger", config := [] }],
    edges := [{ from_node := "T", to_node := "A", condition := none },
              { from_node := "A", to_node := "B", condition := none },
              { from_node := "B", to_node := "A", condition := none }] }

/-- The cyclic workflow wrapped as a `models.Workflow`. -/
def cyclicWorkflow : Workflow := { id := "wf-cyclic", definition := cyclicWf }

/-- The loop state reached on `cyclicWf` after `T` executes: node `A` is queued but
its dependency `B` can never complete, so every further iteration re-queues `A`
and reproduces this exact state. -/
def cyclicStuckState : LoopState :=
  { queue := ["A"],
    completed := ["T"],
    node_outputs := [("T", [("trigger_type", Value.vstr "manual"),
                            ("triggered_at", Value.vstr (isoformat 1)),
                            ("user_input", Value.vdict [])])],
    invoked := ["T"],
    current_node := some "T",
    clock := 2 }

lemma stepLoop_cyclicStuck :
    stepLoop builtinExecutors cyclicWf [] cyclicStuckState
      = StepResult.next cyclicStuckState := rfl

lemma runLoop_cyclicStuck (n : Nat) :
    runLoop builtinExecutors cyclicWf [] n cyclicStuckState = none := by
  induction n with
  | zero => rfl
  | succ n ih => simp [runLoop, stepLoop_cyclicStuck, ih]

lemma runLoop_cyclic_never_terminates (n : Nat) :
    runLoop builtinExecutors cyclicWf [] n (initLoopState cyclicWf 1) = none := by
  match n with
  | 0 => rfl
  | 1 => rfl
  | n + 2 =>
      have h : runLoop builtinExecutors cyclicWf [] (n + 2) (initLoopState cyclicWf 1)
          = runLoop builtinExecutors cyclicWf [] n cyclicStuckState := rfl
      rw [h, runLoop_cyclicStuck]

/-- C1, counterexample. Submitting the cyclic workflow `T → A → B → A` is NOT
rejected: `execute_workflow` stores an `ExecutionRecord` with status RUNNING and
starts the background task, whose scheduling loop then never terminates (here
shown for 1000 iterations via the general lemma). The claim says an
`InvalidDefinition` error is surfaced and no record is created. -/
theorem c1_counterexample_cycle_accepted :
    ∃ st : ExecState,
      lookupStr (executeWorkflow emptyEngine cyclicWorkflow [] "exec-1" 0).2.running_executions
          "exec-1" = some st ∧
      st.execution.status = ExecutionStatus.running ∧
      runLoop builtinExecutors cyclicWf [] 1000 (initLoopState cyclicWf 1) = none :=
  ⟨_, rfl, rfl, runLoop_cyclic_never_terminates 1000⟩

/-- C1, amended. The engine performs no validation at all: for EVERY definition,
cyclic or not, submission synchronously stores an `ExecutionRecord` with status
RUNNING (never PENDING, and never an error) and starts the background task; for
the cyclic workflow `T → A → B → A`, whose cycle is reachable from the entry
node, the background scheduling loop never terminates, so no terminal status is
ever written. -/
theorem c1_amended_no_validation :
    (∀ (engine : EngineState) (w : Workflow) (input : Obj) (eid : String) (now : Nat),
        ∃ st : ExecState,
          lookupStr ((executeWorkflow engine w input eid now).2).running_executions eid
              = some st ∧
          st.execution.status = ExecutionStatus.running ∧
          st.execution.workflow_id = w.id ∧
          st.execution.started_at = some now ∧
          st.execution.completed_at = none) ∧
    (∀ fuel : Nat,
        runLoop builtinExecutors cyclicWf [] fuel (initLoopState cyclicWf 1) = none) := by
  constructor
  · intro engine w input eid now
    exact ⟨_, lookupStr_setStr _ _ _, rfl, rfl, rfl, rfl⟩
  · exact runLoop_cyclic_never_terminates

/-- A one-node workflow used for the cancellation-interleaving counterexample. -/
def soloWf : WorkflowDefinition :=
  { nodes := [{ id := "solo", type := "trigger", config := [] }], edges := [] }

/-- The execution record as created by `execute_workflow` (lines 147-157) for the
one-node workflow, id `exec-c2`, submitted at clock 0. -/
def c2Record : Execution :=
  { id := "exec-c2", workflow_id := "wf-solo", status := .running, input := [],
    output := none, error := none, started_at := some 0, completed_at := none,
    executed_by := none }

/-- C2, counterexample. A record cancelled while the background task is still
walking the graph (status CANCELLED, a terminal state) is later overwritten: when
the loop finishes, the epilogue of `_execute_workflow_async` unconditionally sets
SUCCESS. The claim says a terminal status is never changed afterwards. -/
theorem c2_counterexample_cancelled_overwritten :
    ∃ (e1 : Execution) (r : RunResult),
      cancelRecord c2Record 3 = (true, e1) ∧
      e1.status = ExecutionStatus.cancelled ∧
      runLoop builtinExecutors soloWf [] 10 (initLoopState soloWf 1) = some r ∧
      (finishExecution e1 r).status = ExecutionStatus.success :=
  ⟨_, _, rfl, rfl, rfl, rfl⟩

/-- C2, amended. `cancel_execution` itself never touches a terminal record, but
the background task's completion and failure handling set the status
unconditionally: an execution cancelled while the task is walking the graph is
overwritten to SUCCESS (normal exit) or FAILED (caught exception) when the task
finishes. -/
theorem c2_amended_terminal_overwritten :
    (∀ (e : Execution) (now : Nat),
        (e.status = ExecutionStatus.success ∨ e.status = ExecutionStatus.failed ∨
         e.status = ExecutionStatus.cancelled) →
        cancelRecord e now = (false, e)) ∧
    (∀ (e : Execution) (s : LoopState),
        (finishExecution e (RunResult.ok s)).status = ExecutionStatus.success) ∧
    (∀ (e : Execution) (msg : String) (s : LoopState),
        (finishExecution e (RunResult.failed msg s)).status = ExecutionStatus.failed) := by
  refine ⟨?_, ?_, ?_⟩
  · intro e now h
    simp [cancelRecord, h]
  · intro e s
    rfl
  · intro e msg s
    rfl

/-- A record already in the terminal state CANCELLED. -/
def c2TerminalRecord : Execution := { c2Record with status := ExecutionStatus.cancelled }

/-- C2, witness for the amended theorem at a concrete terminal record. -/
theorem c2_amended_witness :
    cancelRecord c2TerminalRecord 9 = (false, c2TerminalRecord) ∧
    (finishExecution c2TerminalRecord
        (RunResult.ok (initLoopState soloWf 5))).status = ExecutionStatus.success :=
  ⟨c2_amended_terminal_overwritten.1 c2TerminalRecord 9 (Or.inr (Or.inr rfl)),
   c2_amended_terminal_overwritten.2.1 c2TerminalRecord (initLoopState soloWf 5)⟩

/-- A record in status RUNNING, as the engine creates them. -/
def c4RunningRecord : Execution :=
  { id := "exec-c4", workflow_id := "wf", status := .running, input := [],
    output := none, error := none, started_at := some 0, completed_at := none,
    executed_by := none }

/-- C4, counterexample. Cancelling a RUNNING execution sets
`error = "Execution cancelled by user"`, not `"cancelled by caller"` as claimed. -/
theorem c4_counterexample_error_message :
    (cancelRecord c4RunningRecord 5).2.error = some "Execution cancelled by user" ∧
    (cancelRecord c4RunningRecord 5).2.error ≠ some "cancelled by caller" := by
  constructor
  · rfl
  · intro h
    rw [show (cancelRecord c4RunningRecord 5).2.error
        = some "Execution cancelled by user" from rfl] at h
    injection h with h1
    exact absurd h1 (by decide)

/-- C4, amended. Cancelling a PENDING or RUNNING record yields CANCELLED with
`error = "Execution cancelled by user"` and stamps `completed_at`; cancelling a
terminal record is refused — the engine returns `False` and the HTTP route
answers 400 "Cannot cancel execution that is not pending or running" — and the
record (and the route's table) is left unchanged. -/
theorem c4_amended_cancel_behaviour :
    (∀ (e : Execution) (now : Nat),
        (e.status = ExecutionStatus.pending ∨ e.status = ExecutionStatus.running) →
        cancelRecord e now =
          (true, { e with status := ExecutionStatus.cancelled, completed_at := some now,
                          error := some "Execution cancelled by user" })) ∧
    (∀ (e : Execution) (now : Nat),
        (e.status = ExecutionStatus.success ∨ e.status = ExecutionStatus.failed ∨
         e.status = ExecutionStatus.cancelled) →
        cancelRecord e now = (false, e)) ∧
    (∀ (db : List (String × Execution)) (eid : String) (now : Nat) (e : Execution),
        lookupStr db eid = some e →
        ¬(e.status = ExecutionStatus.pending ∨ e.status = ExecutionStatus.running) →
        routeCancelExecution db eid now =
          (RouteCancelResult.httpError 400
            "Cannot cancel execution that is not pending or running", db)) := by
  refine ⟨?_, ?_, ?_⟩
  · intro e now h
    rcases h with h | h <;> simp [cancelRecord, h]
  · intro e now h
    simp [cancelRecord, h]
  · intro db eid now e hlook hterm
    simp [routeCancelExecution, hlook, hterm]

/-- A route-level executions table holding one terminal (SUCCESS) record. -/
def c4TerminalDb : List (String × Execution) :=
  [("exec-c4", { c4RunningRecord with status := ExecutionStatus.success })]

/-- C4, witness for the amended theorem at concrete records. -/
theorem c4_amended_witness :
    cancelRecord c4RunningRecord 5 =
      (true, { c4RunningRecord with
                 status := ExecutionStatus.cancelled,
                 completed_at := some 5,
                 error := some "Execution cancelled by user" }) ∧
    routeCancelExecution c4TerminalDb "exec-c4" 7 =
      (RouteCancelResult.httpError 400
        "Cannot cancel execution that is not pending or running", c4TerminalDb) :=
  ⟨c4_amended_cancel_behaviour.1 c4RunningRecord 5 (Or.inr rfl),
   c4_amended_cancel_behaviour.2.2 c4TerminalDb "exec-c4" 7 _ rfl (by decide)⟩

/-- C9. Cancelling an execution id absent from `running_executions` returns
`False` without raising and without modifying any stored record: the engine state
is returned unchanged. -/
theorem c9_cancel_unknown_id (engine : EngineState) (execution_id : String) (now : Nat)
    (h : lookupStr engine.running_executions execution_id = none) :
    cancelExecution engine execution_id now = (false, engine) := by
  simp [cancelExecution, h]

/-- C9, witness: the empty engine and an unknown id. -/
theorem c9_witness :
    lookupStr emptyEngine.running_executions "missing" = none ∧
    cancelExecution emptyEngine "missing" 3 = (false, emptyEngine) :=
  ⟨rfl, c9_cancel_unknown_id emptyEngine "missing" 3 rfl⟩

/-- A workflow in which agent node `C` has exactly the two connector predecessors
`A` and `B` (so `A` sorts before `B`), but C's incoming edges are DECLARED in the
order `B → C`, `A → C`. The connector configs carry distinguishable
`connector_id` values. -/
def mergeWf (va vb : Value) : WorkflowDefinition :=
  { nodes := [{ id := "A", type := "connector", config := [("connector_id", va)] },
              { id := "B", type := "connector", config := [("connector_id", vb)] },
              { id := "C", type := "agent", config := [] }],
    edges := [{ from_node := "B", to_node := "C", condition := none },
              { from_node := "A", to_node := "C", condition := none }] }

/-- Extract, from a finished run, the `connector_id` the executor of node `C`
actually received: `AgentExecutor` echoes its whole input as `processed_data`, so
the received input is read back from C's recorded output. -/
def cInputConnectorId (r : Option RunResult) : Option Value :=
  match r with
  | some (.ok s) =>
      match lookupStr s.node_outputs "C" with
      | some outC =>
          match lookupStr outC "processed_data" with
          | some (.vdict ni) => lookupStr ni "connector_id"
          | _ => none
      | none => none
  | _ => none

/-- C3, amended. The input of a node with several predecessors is the execution's
top-level input merged with the predecessors' outputs in the DECLARATION ORDER of
the incoming edges (`dependencies` preserves edge order, line 205), the later
edge's source overwriting colliding keys — NOT in ascending node-id order. Here
the edges are declared `B → C`, `A → C`, so A's value wins every collision,
whatever the two configured values are. -/
theorem c3_amended_merge_in_edge_order (va vb : Value) :
    cInputConnectorId
        (runLoop builtinExecutors (mergeWf va vb) [] 10
          (initLoopState (mergeWf va vb) 1))
      = some va := rfl

/-- C3, counterexample. With the incoming edges of `C` declared `B → C`, `A → C`,
node C receives A's `connector_id` (`"from-A"`), not B's as the claim predicts
from ascending node-id order (`"A" < "B"` would make B win). -/
theorem c3_counterexample_edge_order_not_id_order :
    cInputConnectorId
        (runLoop builtinExecutors (mergeWf (Value.vstr "from-A") (Value.vstr "from-B")) [] 10
          (initLoopState (mergeWf (Value.vstr "from-A") (Value.vstr "from-B")) 1))
      = some (Value.vstr "from-A") ∧
    cInputConnectorId
        (runLoop builtinExecutors (mergeWf (Value.vstr "from-A") (Value.vstr "from-B")) [] 10
          (initLoopState (mergeWf (Value.vstr "from-A") (Value.vstr "from-B")) 1))
      ≠ some (Value.vstr "from-B") := by
  constructor
  · rfl
  · intro h
    have h0 : cInputConnectorId
        (runLoop builtinExecutors (mergeWf (Value.vstr "from-A") (Value.vstr "from-B")) [] 10
          (initLoopState (mergeWf (Value.vstr "from-A") (Value.vstr "from-B")) 1))
        = some (Value.vstr "from-A") := rfl
    rw [h0] at h
    injection h with h1
    injection h1 with h2
    exact absurd h2 (by decide)

/-- The execution record created by `execute_workflow` for the linear chain,
id `exec-c7`, submitted at clock 0 with empty input. -/
def c7Submitted : Execution :=
  { id := "exec-c7", workflow_id := "wf-chain", status := .running, input := [],
    output := none, error := none, started_at := some 0, completed_at := none,
    executed_by := none }

/-- C7. The linear chain `trigger → connector → agent → action` with the builtin
executors (all succeed on empty input) ends SUCCESS; the record's output holds
`node_outputs` keyed by exactly the four node ids in order, and `completed_at` is
stamped with a clock reading not below `started_at`. -/
theorem c7_linear_chain_success :
    ∃ e : Execution,
      runWorkflowAsync builtinExecutors c7Submitted chainWf 20 1 = some e ∧
      e.status = ExecutionStatus.success ∧
      (∃ outs : Obj, e.output = some outs ∧
        ∃ l, lookupStr outs "node_outputs" = some (Value.vdict l) ∧
          l.map Prod.fst = ["trigger", "connector", "agent", "action"]) ∧
      ∃ t0 t1 : Nat, e.started_at = some t0 ∧ e.completed_at = some t1 ∧ t0 ≤ t1 :=
  ⟨_, rfl, rfl, ⟨_, rfl, _, rfl, rfl⟩, 0, 5, rfl, rfl, by decide⟩

/-- A condition node whose configured expression is the literal `"false"`, with
one outgoing edge (itself guarded by `"false"`) to an action node. -/
def condFalseWf : WorkflowDefinition :=
  { nodes := [{ id := "cond", type := "condition",
                config := [("condition", Value.vstr "false")] },
              { id := "act", type := "action", config := [] }],
    edges := [{ from_node := "cond", to_node := "act", condition := some "false" }] }

/-- C6, counterexample. Running `condFalseWf`, whose condition expression is
`"false"`, still executes the downstream node: `act` is invoked, recorded
completed (there is no skipped state anywhere), its output is stored, and the
condition node's own output reports `result = True` regardless of the expression.
The claim says `act` is excluded, not executed and recorded as skipped. -/
theorem c6_counterexample_downstream_still_runs :
    ∃ s : LoopState,
      runLoop builtinExecutors condFalseWf [] 10 (initLoopState condFalseWf 1)
        = some (RunResult.ok s) ∧
      s.invoked = ["cond", "act"] ∧
      s.completed = ["cond", "act"] ∧
      (∃ outC, lookupStr s.node_outputs "cond" = some outC ∧
        lookupStr outC "result" = some (Value.vbool true)) ∧
      (∃ outA, lookupStr s.node_outputs "act" = some outA) :=
  ⟨_, rfl, rfl, rfl, ⟨_, rfl, rfl⟩, ⟨_, rfl⟩⟩

/-- C6, amended. Condition expressions are never evaluated: `ConditionExecutor`
returns `result = True` for every node, input and clock (the TODO at lines
118-121), and the scheduler ignores edge conditions entirely (TODO at line 232),
so the target of an edge leaving a condition node is always executed and recorded
completed; the run ends SUCCESS when no node fails. -/
theorem c6_amended_conditions_ignored :
    (∀ (node : WorkflowNode) (input_data : Obj) (t : Nat),
        ∃ out tn, conditionExecutor node input_data t = Except.ok (out, tn) ∧
          lookupStr out "result" = some (Value.vbool true)) ∧
    (∃ s : LoopState,
        runLoop builtinExecutors condFalseWf [] 10 (initLoopState condFalseWf 1)
          = some (RunResult.ok s) ∧
        memStr s.invoked "act" = true ∧
        memStr s.completed "act" = true) := by
  constructor
  · intro node input_data t
    exact ⟨_, _, rfl, rfl⟩
  · exact ⟨_, rfl, rfl, rfl⟩

/-- The execution record created by `execute_workflow` for the failing-agent
scenario, id `exec-c5`, submitted at clock 0 with empty input. -/
def c5Submitted : Execution :=
  { id := "exec-c5", workflow_id := "wf-chain", status := .running, input := [],
    output := none, error := none, started_at := some 0, completed_at := none,
    executed_by := none }

/-- C5, counterexample. In the failing-agent scenario the run does end FAILED
with `error = "LLM unavailable"`, but the record's output stays `None`: the
failure path of `_execute_workflow_async` (lines 244-248) never writes the
loop-local `node_outputs` back, so the record contains NO entry for `trigger` or
`connector`, contradicting the claim that `nodeOutputs` holds exactly those two. -/
theorem c5_counterexample_outputs_not_recorded :
    ∃ e : Execution,
      runWorkflowAsync scenarioRegistry c5Submitted chainWf 20 1 = some e ∧
      e.status = ExecutionStatus.failed ∧
      e.error = some "LLM unavailable" ∧
      e.output = none :=
  ⟨_, rfl, rfl, rfl, rfl⟩

/-- C5, amended. With the spec scenario's raising agent executor the run ends
FAILED with `error = "LLM unavailable"` and a stamped `completed_at`; the action
executor is never invoked, and at the moment of failure the loop's internal
`node_outputs` held exactly the `trigger` and `connector` entries — but these are
not written to the record, whose `output` remains `None`. -/
theorem c5_amended_failure_scenario :
    ∃ (s : LoopState) (e : Execution),
      runLoop scenarioRegistry chainWf [] 20 (initLoopState chainWf 1)
        = some (RunResult.failed "LLM unavailable" s) ∧
      s.node_outputs.map Prod.fst = ["trigger", "connector"] ∧
      s.invoked = ["trigger", "connector", "agent"] ∧
      memStr s.invoked "action" = false ∧
      runWorkflowAsync scenarioRegistry c5Submitted chainWf 20 1 = some e ∧
      e.status = ExecutionStatus.failed ∧
      e.error = some "LLM unavailable" ∧
      e.completed_at = some 3 ∧
      e.output = none :=
  ⟨_, _, rfl, rfl, rfl, rfl, rfl, rfl, rfl, rfl, rfl⟩

/-- The five node types registered in `WorkflowEngine.__init__`. -/
def knownTypes : List String := ["trigger", "connector", "agent", "action", "condition"]

/-- The ids of a definition's declared nodes. -/
def nodeIds (wf : WorkflowDefinition) : List String := wf.nodes.map WorkflowNode.id

/-- Python `len(v)` succeeds on `v`. -/
def sizedValue (v : Value) : Bool := (pyLen v).isSome

lemma memStr_iff (l : List String) (x : String) : memStr l x = true ↔ x ∈ l := by
  induction l with
  | nil => simp [memStr]
  | cons y ys ih =>
      by_cases h : y = x
      · simp [memStr, h]
      · simp only [memStr, if_neg h, ih, List.mem_cons]
        exact ⟨Or.inr, fun hc => hc.elim (fun hh => absurd hh.symm h) id⟩

lemma lookupStr_eq_none_iff {α : Type} (l : List (String × α)) (k : String) :
    lookupStr l k = none ↔ ∀ p ∈ l, p.1 ≠ k := by
  induction l with
  | nil => simp [lookupStr]
  | cons hd tl ih =>
      obtain ⟨k1, v1⟩ := hd
      by_cases h : k1 = k
      · simp [lookupStr, h]
      · simp [lookupStr, h, ih]

lemma lookupStr_mem {α : Type} {l : List (String × α)} {k : String} {v : α}
    (h : lookupStr l k = some v) : ∃ k0, (k0, v) ∈ l := by
  induction l with
  | nil => simp [lookupStr] at h
  | cons hd tl ih =>
      obtain ⟨k1, v1⟩ := hd
      by_cases hk : k1 = k
      · simp only [lookupStr, if_pos hk, Option.some.injEq] at h
        exact ⟨k1, by simp [h]⟩
      · simp only [lookupStr, if_neg hk] at h
        obtain ⟨k0, hk0⟩ := ih h
        exact ⟨k0, List.mem_cons.mpr (Or.inr hk0)⟩

lemma lookupStr_setStr_ne {α : Type} (l : List (String × α)) (k1 k : String) (v : α)
    (h : k1 ≠ k) : lookupStr (setStr l k1 v) k = lookupStr l k := by
  induction l with
  | nil => simp [setStr, lookupStr, h]
  | cons hd tl ih =>
      obtain ⟨k2, v2⟩ := hd
      by_cases h2 : k2 = k1
      · subst h2
        simp only [setStr, if_pos rfl, lookupStr, if_neg h]
      · by_cases h3 : k2 = k
        · simp only [setStr, if_neg h2, lookupStr, if_pos h3]
        · simp only [setStr, if_neg h2, lookupStr, if_neg h3]
          exact ih

lemma lookupStr_foldl_setStr (d2 : Obj) :
    ∀ (d1 : Obj) (k : String), (∀ p ∈ d2, p.1 ≠ k) →
      lookupStr (d2.foldl (fun acc kv => setStr acc kv.1 kv.2) d1) k = lookupStr d1 k := by
  induction d2 with
  | nil => intro d1 k h; rfl
  | cons hd tl ih =>
      intro d1 k h
      simp only [List.foldl_cons]
      rw [ih (setStr d1 hd.1 hd.2) k (fun p hp => h p (List.mem_cons.mpr (Or.inr hp)))]
      exact lookupStr_setStr_ne d1 hd.1 k hd.2 (h hd (List.mem_cons.mpr (Or.inl rfl)))

lemma lookupStr_objUpdate_none (d1 d2 : Obj) (k : String)
    (h : lookupStr d2 k = none) :
    lookupStr (objUpdate d1 d2) k = lookupStr d1 k :=
  lookupStr_foldl_setStr d2 d1 k ((lookupStr_eq_none_iff d2 k).mp h)

lemma nodeInputFor_cons (input : Obj) (outs : List (String × Obj)) (dep : String)
    (rest : List String) :
    nodeInputFor input outs (dep :: rest)
      = nodeInputFor
          (match lookupStr outs dep with
           | some out => objUpdate input out
           | none => input) outs rest := rfl

lemma lookupStr_nodeInputFor (outs : List (String × Obj)) (depsL : List String) :
    ∀ (input : Obj), (∀ p ∈ outs, lookupStr p.2 "data" = none) →
      lookupStr (nodeInputFor input outs depsL) "data" = lookupStr input "data" := by
  induction depsL with
  | nil => intro input h; rfl
  | cons dep rest ih =>
      intro input h
      rw [nodeInputFor_cons, ih _ h]
      cases hdep : lookupStr outs dep with
      | none => rfl
      | some out =>
          obtain ⟨k0, hmem⟩ := lookupStr_mem hdep
          exact lookupStr_objUpdate_none input out "data" (h (k0, out) hmem)

lemma mem_setStr {α : Type} {l : List (String × α)} {k : String} {v : α} {p : String × α}
    (h : p ∈ setStr l k v) : p ∈ l ∨ p = (k, v) := by
  induction l with
  | nil => simpa [setStr] using h
  | cons hd tl ih =>
      obtain ⟨k1, v1⟩ := hd
      by_cases hk : k1 = k
      · simp only [setStr, if_pos hk] at h
        rcases List.mem_cons.mp h with h | h
        · exact Or.inr (by simp [h, hk])
        · exact Or.inl (List.mem_cons.mpr (Or.inr h))
      · simp only [setStr, if_neg hk] at h
        rcases List.mem_cons.mp h with h | h
        · exact Or.inl (List.mem_cons.mpr (Or.inl h))
        · rcases ih h with h | h
          · exact Or.inl (List.mem_cons.mpr (Or.inr h))
          · exact Or.inr h

lemma mem_edgesFrom {wf : WorkflowDefinition} {nid : String} {e : WorkflowEdge}
    (h : e ∈ edgesFrom wf nid) : e ∈ wf.edges ∧ e.from_node = nid := by
  have h2 := List.mem_filter.mp h
  exact ⟨h2.1, by simpa using h2.2⟩

lemma mem_dependenciesOf {wf : WorkflowDefinition} {x d : String}
    (h : d ∈ dependenciesOf wf x) :
    ∃ e ∈ wf.edges, e.to_node = x ∧ e.from_node = d := by
  obtain ⟨e, he, hde⟩ := List.mem_map.mp h
  have h2 := List.mem_filter.mp he
  exact ⟨e, h2.1, by simpa using h2.2, hde⟩

lemma entry_mem_nodeIds {wf : WorkflowDefinition} {q : String}
    (h : q ∈ entryNodes wf) : q ∈ nodeIds wf := by
  obtain ⟨n, hn, hq⟩ := List.mem_map.mp h
  exact List.mem_map.mpr ⟨n, (List.mem_filter.mp hn).1, hq⟩

lemma nodesById_of_mem (wf : WorkflowDefinition) (nid : String)
    (h : nid ∈ nodeIds wf) :
    ∃ node, nodesById wf nid = some node ∧ node ∈ wf.nodes ∧ node.id = nid := by
  obtain ⟨n, hn, hid⟩ := List.mem_map.mp h
  have hsome : (nodesById wf nid).isSome := by
    rw [nodesById, List.find?_isSome]
    exact ⟨n, List.mem_reverse.mpr hn, by simp [hid]⟩
  obtain ⟨node, hnode⟩ := Option.isSome_iff_exists.mp hsome
  refine ⟨node, hnode, ?_, ?_⟩
  · exact List.mem_reverse.mp (List.mem_of_find?_eq_some hnode)
  · simpa using List.find?_some hnode

lemma triggerExecutor_ok (node : WorkflowNode) (input_data : Obj) (t : Nat) :
    ∃ out tn, triggerExecutor node input_data t = Except.ok (out, tn) ∧
      lookupStr out "data" = none := by
  unfold triggerExecutor
  split
  · exact ⟨_, _, rfl, rfl⟩
  · exact ⟨_, _, rfl, rfl⟩
  · exact ⟨_, _, rfl, rfl⟩

lemma connectorExecutor_ok (node : WorkflowNode) (input_data : Obj) (t : Nat) :
    ∃ out tn, connectorExecutor node input_data t = Except.ok (out, tn) ∧
      lookupStr out "data" = none :=
  ⟨_, _, rfl, rfl⟩

lemma agentExecutor_ok (node : WorkflowNode) (input_data : Obj) (t : Nat)
    (h : ∀ v, lookupStr input_data "data" = some v → sizedValue v = true) :
    ∃ out tn, agentExecutor node input_data t = Except.ok (out, tn) ∧
      lookupStr out "data" = none := by
  unfold agentExecutor
  cases hv : lookupStr input_data "data" with
  | none =>
      simp only [objGetD, hv, Option.getD_none]
      exact ⟨_, _, rfl, rfl⟩
  | some v =>
      obtain ⟨n, hn⟩ := Option.isSome_iff_exists.mp (h v hv)
      simp only [objGetD, hv, Option.getD_some, hn]
      exact ⟨_, _, rfl, rfl⟩

lemma actionExecutor_ok (node : WorkflowNode) (input_data : Obj) (t : Nat) :
    ∃ out tn, actionExecutor node input_data t = Except.ok (out, tn) ∧
      lookupStr out "data" = none := by
  unfold actionExecutor
  split
  · exact ⟨_, _, rfl, rfl⟩
  · exact ⟨_, _, rfl, rfl⟩

lemma conditionExecutor_ok (node : WorkflowNode) (input_data : Obj) (t : Nat) :
    ∃ out tn, conditionExecutor node input_data t = Except.ok (out, tn) ∧
      lookupStr out "data" = none :=
  ⟨_, _, rfl, rfl⟩

/-- Each of the five builtin executors, applied to an input whose `"data"` value
(if any) has a Python length, succeeds and produces an output without a `"data"`
key. -/
lemma builtin_executor_ok (node : WorkflowNode) (input_data : Obj) (t : Nat)
    (hty : node.type ∈ knownTypes)
    (h : ∀ v, lookupStr input_data "data" = some v → sizedValue v = true) :
    ∃ ex out tn, builtinExecutors node.type = some ex ∧
      ex node input_data t = Except.ok (out, tn) ∧ lookupStr out "data" = none := by
  simp only [knownTypes, List.mem_cons, List.mem_singleton] at hty
  rcases hty with h1 | h1 | h1 | h1 | h1 | h1
  · obtain ⟨out, tn, hok, hd⟩ := triggerExecutor_ok node input_data t
    exact ⟨triggerExecutor, out, tn, by rw [h1]; rfl, hok, hd⟩
  · obtain ⟨out, tn, hok, hd⟩ := connectorExecutor_ok node input_data t
    exact ⟨connectorExecutor, out, tn, by rw [h1]; rfl, hok, hd⟩
  · obtain ⟨out, tn, hok, hd⟩ := agentExecutor_ok node input_data t h
    exact ⟨agentExecutor, out, tn, by rw [h1]; rfl, hok, hd⟩
  · obtain ⟨out, tn, hok, hd⟩ := actionExecutor_ok node input_data t
    exact ⟨actionExecutor, out, tn, by rw [h1]; rfl, hok, hd⟩
  · obtain ⟨out, tn, hok, hd⟩ := conditionExecutor_ok node input_data t
    exact ⟨conditionExecutor, out, tn, by rw [h1]; rfl, hok, hd⟩
  · cases h1

section StepEquations

variable (registry : String → Option Executor) (wf : WorkflowDefinition) (input : Obj)
variable (s : LoopState) (current : String) (rest : List String)

lemma stepLoop_nil (h : s.queue = []) :
    stepLoop registry wf input s = StepResult.done s := by
  unfold stepLoop
  rw [h]

lemma stepLoop_cons_completed (h : s.queue = current :: rest)
    (hc : memStr s.completed current = true) :
    stepLoop registry wf input s = StepResult.next { s with queue := rest } := by
  unfold stepLoop
  rw [h]
  simp [hc]

lemma stepLoop_cons_requeue (h : s.queue = current :: rest)
    (hc : memStr s.completed current = false)
    (hdep : (dependenciesOf wf current).all (fun dep => memStr s.completed dep) = false) :
    stepLoop registry wf input s = StepResult.next { s with queue := rest ++ [current] } := by
  unfold stepLoop
  rw [h]
  simp [hc, hdep]

lemma stepLoop_cons_nonode (h : s.queue = current :: rest)
    (hc : memStr s.completed current = false)
    (hdep : (dependenciesOf wf current).all (fun dep => memStr s.completed dep) = true)
    (hnode : nodesById wf current = none) :
    stepLoop registry wf input s
      = StepResult.failed (keyError current) { s with queue := rest } := by
  unfold stepLoop
  rw [h]
  simp [hc, hdep, hnode]

lemma stepLoop_cons_noexec (node : WorkflowNode) (h : s.queue = current :: rest)
    (hc : memStr s.completed current = false)
    (hdep : (dependenciesOf wf current).all (fun dep => memStr s.completed dep) = true)
    (hnode : nodesById wf current = some node)
    (hex : registry node.type = none) :
    stepLoop registry wf input s
      = StepResult.failed ("No executor found for node type: " ++ node.type)
          { s with queue := rest, current_node := some current } := by
  unfold stepLoop
  rw [h]
  simp [hc, hdep, hnode, hex]

lemma stepLoop_cons_error (node : WorkflowNode) (ex : Executor) (msg : String)
    (h : s.queue = current :: rest)
    (hc : memStr s.completed current = false)
    (hdep : (dependenciesOf wf current).all (fun dep => memStr s.completed dep) = true)
    (hnode : nodesById wf current = some node)
    (hex : registry node.type = some ex)
    (hres : ex node (nodeInputFor input s.node_outputs (dependenciesOf wf current)) s.clock
      = Except.error msg) :
    stepLoop registry wf input s
      = StepResult.failed msg
          { s with queue := rest, current_node := some current,
                   invoked := s.invoked ++ [current] } := by
  unfold stepLoop
  rw [h]
  simp [hc, hdep, hnode, hex, hres]

lemma stepLoop_cons_exec (node : WorkflowNode) (ex : Executor) (output : Obj) (t : Nat)
    (h : s.queue = current :: rest)
    (hc : memStr s.completed current = false)
    (hdep : (dependenciesOf wf current).all (fun dep => memStr s.completed dep) = true)
    (hnode : nodesById wf current = some node)
    (hex : registry node.type = some ex)
    (hres : ex node (nodeInputFor input s.node_outputs (dependenciesOf wf current)) s.clock
      = Except.ok (output, t)) :
    stepLoop registry wf input s
      = StepResult.next
          { queue := rest ++ (edgesFrom wf current).map WorkflowEdge.to_node,
            completed := s.completed ++ [current],
            node_outputs := setStr s.node_outputs current output,
            invoked := s.invoked ++ [current],
            current_node := some current,
            clock := t } := by
  unfold stepLoop
  rw [h]
  simp [hc, hdep, hnode, hex, hres]

end StepEquations

/-- Invariant for the safety argument of known-type workflows: every queued id is
declared, and no recorded node output carries a `"data"` key. -/
def SafeState (wf : WorkflowDefinition) (s : LoopState) : Prop :=
  (∀ q ∈ s.queue, q ∈ nodeIds wf) ∧
  (∀ p ∈ s.node_outputs, lookupStr p.2 "data" = none)

lemma bool_eq_false_of_ne_true {b : Bool} (h : ¬b = true) : b = false := by
  cases b
  · rfl
  · exact absurd rfl h

lemma stepLoop_safe (wf : WorkflowDefinition) (input : Obj) (s : LoopState)
    (htypes : ∀ n ∈ wf.nodes, n.type ∈ knownTypes)
    (hto : ∀ e ∈ wf.edges, e.to_node ∈ nodeIds wf)
    (hinput : ∀ v, lookupStr input "data" = some v → sizedValue v = true)
    (hs : SafeState wf s) :
    (∀ msg sf, stepLoop builtinExecutors wf input s ≠ StepResult.failed msg sf) ∧
    (∀ sn, stepLoop builtinExecutors wf input s = StepResult.next sn → SafeState wf sn) := by
  obtain ⟨hq, houts⟩ := hs
  rcases hqueue : s.queue with _ | ⟨current, rest⟩
  · rw [stepLoop_nil _ _ _ _ hqueue]
    exact ⟨fun msg sf h => (nomatch h), fun sn h => (nomatch h)⟩
  · have hqcur : current ∈ nodeIds wf :=
      hq current (by rw [hqueue]; exact List.mem_cons_self _ _)
    have hrest : ∀ q ∈ rest, q ∈ nodeIds wf := fun q hq2 =>
      hq q (by rw [hqueue]; exact List.mem_cons.mpr (Or.inr hq2))
    by_cases hc : memStr s.completed current = true
    · rw [stepLoop_cons_completed _ _ _ _ _ _ hqueue hc]
      refine ⟨fun msg sf h => (nomatch h), fun sn h => ?_⟩
      cases h
      exact ⟨hrest, houts⟩
    · have hc2 := bool_eq_false_of_ne_true hc
      by_cases hdep :
          (dependenciesOf wf current).all (fun dep => memStr s.completed dep) = true
      · obtain ⟨node, hnode, hmemnode, hid⟩ := nodesById_of_mem wf current hqcur
        have hdata : ∀ v,
            lookupStr (nodeInputFor input s.node_outputs (dependenciesOf wf current))
              "data" = some v → sizedValue v = true := by
          intro v hv
          rw [lookupStr_nodeInputFor s.node_outputs (dependenciesOf wf current) input houts]
            at hv
          exact hinput v hv
        obtain ⟨ex, output, tn, hexreg, hok, hd⟩ :=
          builtin_executor_ok node
            (nodeInputFor input s.node_outputs (dependenciesOf wf current)) s.clock
            (htypes node hmemnode) hdata
        rw [stepLoop_cons_exec _ _ _ _ _ _ node ex output tn hqueue hc2 hdep hnode
          hexreg hok]
        refine ⟨fun msg sf h => (nomatch h), fun sn h => ?_⟩
        cases h
        constructor
        · intro q hq2
          rcases List.mem_append.mp hq2 with h2 | h2
          · exact hrest q h2
          · obtain ⟨e, he, hqe⟩ := List.mem_map.mp h2
            exact hqe ▸ hto e (mem_edgesFrom he).1
        · intro p hp
          rcases mem_setStr hp with h2 | h2
          · exact houts p h2
          · rw [h2]
            exact hd
      · have hdep2 := bool_eq_false_of_ne_true hdep
        rw [stepLoop_cons_requeue _ _ _ _ _ _ hqueue hc2 hdep2]
        refine ⟨fun msg sf h => (nomatch h), fun sn h => ?_⟩
        cases h
        refine ⟨?_, houts⟩
        intro q hq2
        rcases List.mem_append.mp hq2 with h2 | h2
        · exact hrest q h2
        · rw [List.mem_singleton.mp h2]
          exact hqcur

lemma runLoop_safe (wf : WorkflowDefinition) (input : Obj)
    (htypes : ∀ n ∈ wf.nodes, n.type ∈ knownTypes)
    (hto : ∀ e ∈ wf.edges, e.to_node ∈ nodeIds wf)
    (hinput : ∀ v, lookupStr input "data" = some v → sizedValue v = true) :
    ∀ (fuel : Nat) (s : LoopState) (r : RunResult), SafeState wf s →
      runLoop builtinExecutors wf input fuel s = some r →
      ∃ sf, r = RunResult.ok sf := by
  intro fuel
  induction fuel with
  | zero =>
      intro s r hs hr
      simp [runLoop] at hr
  | succ fuel ih =>
      intro s r hs hr
      obtain ⟨hnf, hpres⟩ := stepLoop_safe wf input s htypes hto hinput hs
      cases hstep : stepLoop builtinExecutors wf input s with
      | done sf =>
          simp only [runLoop, hstep] at hr
          exact ⟨sf, (Option.some.inj hr).symm⟩
      | failed msg sf => exact absurd hstep (hnf msg sf)
      | next sn =>
          simp only [runLoop, hstep] at hr
          exact ih sn r (hpres sn hstep) hr

/-- C10, amended. For every workflow whose nodes all have one of the five known
types and whose edges reference declared node ids, and whose execution input
binds `"data"` (if at all) to a value with a Python length, no builtin executor
ever raises: the background task's FAILED branch is unreachable, so a
terminating run can only exit the loop normally (and hence end SUCCESS; a
cancellation is the only other possible terminal status). The `"data"` proviso
is forced by the counterexample: `AgentExecutor` calls
`len(input_data.get("data", []))`, which raises `TypeError` on a length-less
value. -/
theorem c10_amended_failed_unreachable (wf : WorkflowDefinition) (input : Obj)
    (htypes : ∀ n ∈ wf.nodes, n.type ∈ knownTypes)
    (hedges : ∀ e ∈ wf.edges, e.from_node ∈ nodeIds wf ∧ e.to_node ∈ nodeIds wf)
    (hinput : ∀ v, lookupStr input "data" = some v → sizedValue v = true) :
    ∀ (fuel t0 : Nat) (r : RunResult),
      runLoop builtinExecutors wf input fuel (initLoopState wf t0) = some r →
      ∃ s, r = RunResult.ok s := by
  intro fuel t0 r hr
  refine runLoop_safe wf input htypes (fun e he => (hedges e he).2) hinput fuel _ r
    ⟨fun q hq => entry_mem_nodeIds hq, fun p hp => by cases hp⟩ hr

/-- A workflow made of a single agent node (a known type, no edges). -/
def c10BadWf : WorkflowDefinition :=
  { nodes := [{ id := "ag", type := "agent", config := [] }], edges := [] }

/-- The record created by `execute_workflow` for `c10BadWf` with input
`{"data": 1}`, id `exec-c10`, submitted at clock 0. -/
def c10Submitted : Execution :=
  { id := "exec-c10", workflow_id := "wf-c10", status := .running,
    input := [("data", Value.vint 1)], output := none, error := none,
    started_at := some 0, completed_at := none, executed_by := none }

/-- C10, counterexample. A workflow of known node types with well-formed edges
can still reach the FAILED branch: with top-level input `{"data": 1}` the agent
executor evaluates `len(input_data.get("data", []))` on the integer `1` and
raises `TypeError`, so the run ends FAILED — contradicting the claim that no
builtin executor ever raises for any node and input. -/
theorem c10_counterexample_agent_len_raises :
    (∀ n ∈ c10BadWf.nodes, n.type ∈ knownTypes) ∧
    (∀ e ∈ c10BadWf.edges,
        e.from_node ∈ nodeIds c10BadWf ∧ e.to_node ∈ nodeIds c10BadWf) ∧
    ∃ e : Execution,
      runWorkflowAsync builtinExecutors c10Submitted c10BadWf 5 1 = some e ∧
      e.status = ExecutionStatus.failed ∧
      e.error = some "object of type int has no len()" := by
  refine ⟨by decide, by decide, _, rfl, rfl, rfl⟩

/-- C10, witness for the amended theorem: the four-node chain with a sized
`"data"` input terminates with a normal (`ok`) loop exit. -/
theorem c10_amended_witness :
    ∃ s : LoopState,
      runLoop builtinExecutors chainWf [("data", Value.vstr "ok")] 20
        (initLoopState chainWf 1) = some (RunResult.ok s) := by
  have hd : ∀ v, lookupStr [("data", Value.vstr "ok")] "data" = some v →
      sizedValue v = true := by
    intro v hv
    have hv2 : some (Value.vstr "ok") = some v := hv
    injection hv2 with h2
    rw [← h2]
    rfl
  obtain ⟨r, hr⟩ : ∃ r, runLoop builtinExecutors chainWf [("data", Value.vstr "ok")] 20
      (initLoopState chainWf 1) = some r := ⟨_, rfl⟩
  obtain ⟨s, hs⟩ := c10_amended_failed_unreachable chainWf [("data", Value.vstr "ok")]
    (by decide) (by decide) hd 20 1 r hr
  rw [hs] at hr
  exact ⟨s, hr⟩

/-- A queued node is ready when it is uncompleted and every dependency is
completed — exactly the condition under which the loop body executes it. -/
def readyNode (wf : WorkflowDefinition) (completed : List String) (x : String) : Bool :=
  !(memStr completed x) && (dependenciesOf wf x).all (fun dep => memStr completed dep)

/-- Number of queue positions before the first ready node (the whole queue length
when none is ready): the inner termination measure of the requeue loop. -/
def readyIdx (wf : WorkflowDefinition) (completed : List String) (queue : List String) :
    Nat :=
  (queue.takeWhile (fun x => !(readyNode wf completed x))).length

/-- Number of declared nodes not yet completed: the outer termination measure. -/
def pendingCount (wf : WorkflowDefinition) (s : LoopState) : Nat :=
  (nodeIds wf).length - s.completed.length

/-- The loop invariant for acyclic scheduling: queued ids are declared, completed
ids are declared and duplicate-free, the invocation log coincides with the
completed list, and every uncompleted node whose dependencies are all completed
sits in the queue. -/
def InvC8 (wf : WorkflowDefinition) (s : LoopState) : Prop :=
  (∀ q ∈ s.queue, q ∈ nodeIds wf) ∧
  (∀ c ∈ s.completed, c ∈ nodeIds wf) ∧
  s.completed.Nodup ∧
  s.invoked = s.completed ∧
  (∀ x ∈ nodeIds wf, x ∉ s.completed →
      (∀ d ∈ dependenciesOf wf x, d ∈ s.completed) → x ∈ s.queue)

lemma exists_min_rank (rank : String → Nat) :
    ∀ (l : List String), l ≠ [] → ∃ x ∈ l, ∀ y ∈ l, rank x ≤ rank y := by
  intro l
  induction l with
  | nil => intro h; cases h rfl
  | cons a t ih =>
      intro _
      by_cases ht : t = []
      · refine ⟨a, List.mem_cons_self _ _, fun y hy => ?_⟩
        rcases List.mem_cons.mp hy with h2 | h2
        · rw [h2]
        · rw [ht] at h2; cases h2
      · obtain ⟨x, hx, hmin⟩ := ih ht
        by_cases hax : rank a ≤ rank x
        · refine ⟨a, List.mem_cons_self _ _, fun y hy => ?_⟩
          rcases List.mem_cons.mp hy with h2 | h2
          · rw [h2]
          · exact le_trans hax (hmin y h2)
        · refine ⟨x, List.mem_cons.mpr (Or.inr hx), fun y hy => ?_⟩
          rcases List.mem_cons.mp hy with h2 | h2
          · rw [h2]; exact le_of_lt (lt_of_not_le hax)
          · exact hmin y h2

lemma takeWhile_append_of_exists {α : Type} (p : α → Bool) (l2 : List α) :
    ∀ l1 : List α, (∃ x ∈ l1, p x = false) →
      (l1 ++ l2).takeWhile p = l1.takeWhile p := by
  intro l1
  induction l1 with
  | nil =>
      rintro ⟨x, hx, _⟩
      cases hx
  | cons a t ih =>
      rintro ⟨x, hx, hpx⟩
      cases hpa : p a with
      | false => simp [List.takeWhile_cons, hpa]
      | true =>
          rcases List.mem_cons.mp hx with h2 | h2
          · rw [h2] at hpx; rw [hpx] at hpa; cases hpa
          · simp [List.takeWhile_cons, hpa, ih ⟨x, h2, hpx⟩]

lemma readyIdx_cons_of_not_ready (wf : WorkflowDefinition) (completed : List String)
    (current : String) (rest : List String)
    (h : readyNode wf completed current = false) :
    readyIdx wf completed (current :: rest) = readyIdx wf completed rest + 1 := by
  simp [readyIdx, List.takeWhile_cons, h]

lemma nodup_length_le {l1 l2 : List String} (h1 : l1.Nodup)
    (hsub : ∀ a ∈ l1, a ∈ l2) : l1.length ≤ l2.length := by
  calc l1.length = l1.toFinset.card := (List.toFinset_card_of_nodup h1).symm
    _ ≤ l2.toFinset.card :=
        Finset.card_le_card
          (fun a ha => List.mem_toFinset.mpr (hsub a (List.mem_toFinset.mp ha)))
    _ ≤ l2.length := List.toFinset_card_le l2

/-- While any declared node is uncompleted, some ready node sits in the queue:
take a minimal-rank uncompleted node; acyclicity (the rank) makes all its
dependencies completed, and the invariant puts it in the queue. -/
lemma ready_in_queue (wf : WorkflowDefinition) (rank : String → Nat)
    (hrank : ∀ e ∈ wf.edges, rank e.from_node < rank e.to_node)
    (hfrom : ∀ e ∈ wf.edges, e.from_node ∈ nodeIds wf)
    (s : LoopState) (hinv : InvC8 wf s)
    (x0 : String) (hx0 : x0 ∈ nodeIds wf) (hxc : x0 ∉ s.completed) :
    ∃ y, y ∈ s.queue ∧ readyNode wf s.completed y = true := by
  obtain ⟨hq, hcsub, hnd, hik, hready⟩ := hinv
  have hx0S : x0 ∈ (nodeIds wf).filter (fun x => !(memStr s.completed x)) := by
    refine List.mem_filter.mpr ⟨hx0, ?_⟩
    cases hb : memStr s.completed x0
    · rfl
    · exact absurd ((memStr_iff _ _).mp hb) hxc
  obtain ⟨y, hyS, hymin⟩ := exists_min_rank rank _ (List.ne_nil_of_mem hx0S)
  have hyids : y ∈ nodeIds wf := (List.mem_filter.mp hyS).1
  have hyc : y ∉ s.completed := by
    have h2 := (List.mem_filter.mp hyS).2
    intro hmem
    rw [(memStr_iff _ _).mpr hmem] at h2
    cases h2
  have hdeps : ∀ d ∈ dependenciesOf wf y, d ∈ s.completed := by
    intro d hd
    obtain ⟨e, he, hto2, hfrom2⟩ := mem_dependenciesOf hd
    by_contra hdc
    have hdS : d ∈ (nodeIds wf).filter (fun x => !(memStr s.completed x)) := by
      refine List.mem_filter.mpr ⟨hfrom2 ▸ hfrom e he, ?_⟩
      cases hb : memStr s.completed d
      · rfl
      · exact absurd ((memStr_iff _ _).mp hb) hdc
    have hle := hymin d hdS
    have hlt : rank d < rank y := by
      have h3 := hrank e he
      rw [hfrom2, hto2] at h3
      exact h3
    exact absurd hle (not_le.mpr hlt)
  have h1 : memStr s.completed y = false := by
    cases hb : memStr s.completed y
    · rfl
    · exact absurd ((memStr_iff _ _).mp hb) hyc
  have h2 : (dependenciesOf wf y).all (fun dep => memStr s.completed dep) = true :=
    List.all_eq_true.mpr (fun d hd => (memStr_iff _ _).mpr (hdeps d hd))
  exact ⟨y, hready y hyids hyc hdeps, by simp [readyNode, h1, h2]⟩

/-- Case analysis of one loop iteration under the invariant: the loop is done
(empty queue), fails (terminating the run), or steps to an invariant state whose
termination measure strictly decreases lexicographically. -/
lemma stepLoop_c8 (registry : String → Option Executor) (wf : WorkflowDefinition)
    (input : Obj) (s : LoopState) (rank : String → Nat)
    (hrank : ∀ e ∈ wf.edges, rank e.from_node < rank e.to_node)
    (hfrom : ∀ e ∈ wf.edges, e.from_node ∈ nodeIds wf)
    (hto : ∀ e ∈ wf.edges, e.to_node ∈ nodeIds wf)
    (hinv : InvC8 wf s) :
    (s.queue = [] ∧ stepLoop registry wf input s = StepResult.done s) ∨
    (∃ msg sf, stepLoop registry wf input s = StepResult.failed msg sf) ∨
    (∃ sn, stepLoop registry wf input s = StepResult.next sn ∧ InvC8 wf sn ∧
      (pendingCount wf sn < pendingCount wf s ∨
       (sn.completed = s.completed ∧
        readyIdx wf sn.completed sn.queue < readyIdx wf s.completed s.queue))) := by
  obtain ⟨hq, hcsub, hnd, hik, hready⟩ := hinv
  rcases hqueue : s.queue with _ | ⟨current, rest⟩
  · exact Or.inl ⟨rfl, stepLoop_nil _ _ _ _ hqueue⟩
  · have hqcur : current ∈ nodeIds wf :=
      hq current (by rw [hqueue]; exact List.mem_cons_self _ _)
    have hrest : ∀ q ∈ rest, q ∈ nodeIds wf := fun q hq2 =>
      hq q (by rw [hqueue]; exact List.mem_cons.mpr (Or.inr hq2))
    by_cases hc : memStr s.completed current = true
    · -- the head is already completed: it is skipped
      refine Or.inr (Or.inr ⟨_, stepLoop_cons_completed _ _ _ _ _ _ hqueue hc,
        ⟨hrest, hcsub, hnd, hik, ?_⟩, Or.inr ⟨rfl, ?_⟩⟩)
      · intro x hx hxc hdeps
        have hxq := hready x hx hxc hdeps
        rw [hqueue] at hxq
        rcases List.mem_cons.mp hxq with h2 | h2
        · exact absurd ((memStr_iff _ _).mp (h2 ▸ hc)) hxc
        · exact h2
      · have hcurnr : readyNode wf s.completed current = false := by
          simp [readyNode, hc]
        show readyIdx wf s.completed rest < readyIdx wf s.completed (current :: rest)
        rw [readyIdx_cons_of_not_ready wf s.completed current rest hcurnr]
        exact Nat.lt_succ_self _
    · have hc2 := bool_eq_false_of_ne_true hc
      have hccur : current ∉ s.completed := fun hmem => by
        rw [(memStr_iff _ _).mpr hmem] at hc2
        cases hc2
      by_cases hdep :
          (dependenciesOf wf current).all (fun dep => memStr s.completed dep) = true
      · -- dependencies satisfied: the node is looked up and dispatched
        cases hnodeopt : nodesById wf current with
        | none =>
            exact Or.inr (Or.inl ⟨_, _,
              stepLoop_cons_nonode _ _ _ _ _ _ hqueue hc2 hdep hnodeopt⟩)
        | some node =>
          cases hexopt : registry node.type with
          | none =>
              exact Or.inr (Or.inl ⟨_, _,
                stepLoop_cons_noexec _ _ _ _ _ _ node hqueue hc2 hdep hnodeopt hexopt⟩)
          | some ex =>
            cases hres : ex node
                (nodeInputFor input s.node_outputs (dependenciesOf wf current))
                s.clock with
            | error msg =>
                exact Or.inr (Or.inl ⟨_, _,
                  stepLoop_cons_error _ _ _ _ _ _ node ex msg hqueue hc2 hdep hnodeopt
                    hexopt hres⟩)
            | ok pr =>
                obtain ⟨output, t⟩ := pr
                have hndnew : (s.completed ++ [current]).Nodup := by
                  rw [List.nodup_append]
                  exact ⟨hnd, List.nodup_singleton _, by simp [hccur]⟩
                have hcsubnew : ∀ c ∈ s.completed ++ [current], c ∈ nodeIds wf := by
                  intro c hcmem
                  rcases List.mem_append.mp hcmem with h2 | h2
                  · exact hcsub c h2
                  · rw [List.mem_singleton.mp h2]; exact hqcur
                refine Or.inr (Or.inr ⟨_,
                  stepLoop_cons_exec _ _ _ _ _ _ node ex output t hqueue hc2 hdep
                    hnodeopt hexopt hres, ⟨?_, hcsubnew, hndnew, ?_, ?_⟩, Or.inl ?_⟩)
                · intro qx hqx
                  rcases List.mem_append.mp hqx with h2 | h2
                  · exact hrest qx h2
                  · obtain ⟨e, he, hqe⟩ := List.mem_map.mp h2
                    exact hqe ▸ hto e (mem_edgesFrom he).1
                · show s.invoked ++ [current] = s.completed ++ [current]
                  rw [hik]
                · intro x hx hxc hdeps2
                  have hxcur : x ≠ current := fun he => hxc (by
                    rw [he]
                    exact List.mem_append.mpr (Or.inr (List.mem_singleton.mpr rfl)))
                  have hxcomp : x ∉ s.completed := fun h2 =>
                    hxc (List.mem_append.mpr (Or.inl h2))
                  by_cases hall : ∀ d ∈ dependenciesOf wf x, d ∈ s.completed
                  · have hxq := hready x hx hxcomp hall
                    rw [hqueue] at hxq
                    rcases List.mem_cons.mp hxq with h2 | h2
                    · exact absurd h2 hxcur
                    · exact List.mem_append.mpr (Or.inl h2)
                  · push_neg at hall
                    obtain ⟨d, hd, hdnc⟩ := hall
                    have hdnew := hdeps2 d hd
                    rcases List.mem_append.mp hdnew with h2 | h2
                    · exact absurd h2 hdnc
                    · have hdcur : d = current := List.mem_singleton.mp h2
                      obtain ⟨e, he, heto, hefrom⟩ := mem_dependenciesOf hd
                      refine List.mem_append.mpr (Or.inr (List.mem_map.mpr
                        ⟨e, List.mem_filter.mpr ⟨he, ?_⟩, heto⟩))
                      simp [hefrom, hdcur]
                · have hlen : s.completed.length + 1 ≤ (nodeIds wf).length := by
                    have h3 := nodup_length_le hndnew hcsubnew
                    simpa using h3
                  have h4 : pendingCount wf
                      { queue := rest ++ (edgesFrom wf current).map WorkflowEdge.to_node,
                        completed := s.completed ++ [current],
                        node_outputs := setStr s.node_outputs current output,
                        invoked := s.invoked ++ [current],
                        current_node := some current,
                        clock := t }
                      = (nodeIds wf).length - (s.completed.length + 1) := by
                    simp [pendingCount]
                  rw [h4]
                  show (nodeIds wf).length - (s.completed.length + 1)
                      < (nodeIds wf).length - s.completed.length
                  exact Nat.sub_lt_sub_left (Nat.lt_of_succ_le hlen) (Nat.lt_succ_self _)
      · -- an unsatisfied dependency: the head is re-queued at the back
        have hdep2 := bool_eq_false_of_ne_true hdep
        refine Or.inr (Or.inr ⟨_, stepLoop_cons_requeue _ _ _ _ _ _ hqueue hc2 hdep2,
          ⟨?_, hcsub, hnd, hik, ?_⟩, Or.inr ⟨rfl, ?_⟩⟩)
        · intro qx hqx
          rcases List.mem_append.mp hqx with h2 | h2
          · exact hrest qx h2
          · rw [List.mem_singleton.mp h2]; exact hqcur
        · intro x hx hxc hdeps2
          have hxq := hready x hx hxc hdeps2
          rw [hqueue] at hxq
          rcases List.mem_cons.mp hxq with h2 | h2
          · exact List.mem_append.mpr (Or.inr (by
              rw [h2]; exact List.mem_singleton.mpr rfl))
          · exact List.mem_append.mpr (Or.inl h2)
        · have hcurnr : readyNode wf s.completed current = false := by
            simp [readyNode, hc2, hdep2]
          obtain ⟨y, hyq, hyr⟩ := ready_in_queue wf rank hrank hfrom s
            ⟨hq, hcsub, hnd, hik, hready⟩ current hqcur hccur
          rw [hqueue] at hyq
          have hyrest : y ∈ rest := by
            rcases List.mem_cons.mp hyq with h2 | h2
            · rw [h2] at hyr; rw [hyr] at hcurnr; cases hcurnr
            · exact h2
          show readyIdx wf s.completed (rest ++ [current])
              < readyIdx wf s.completed (current :: rest)
          rw [readyIdx_cons_of_not_ready wf s.completed current rest hcurnr]
          have heq2 : readyIdx wf s.completed (rest ++ [current])
              = readyIdx wf s.completed rest := by
            unfold readyIdx
            rw [takeWhile_append_of_exists _ _ rest ⟨y, hyrest, by simp [hyr]⟩]
          rw [heq2]
          exact Nat.lt_succ_self _

lemma runLoop_terminates_aux (registry : String → Option Executor)
    (wf : WorkflowDefinition) (input : Obj) (rank : String → Nat)
    (hrank : ∀ e ∈ wf.edges, rank e.from_node < rank e.to_node)
    (hfrom : ∀ e ∈ wf.edges, e.from_node ∈ nodeIds wf)
    (hto : ∀ e ∈ wf.edges, e.to_node ∈ nodeIds wf) :
    ∀ (u k : Nat) (s : LoopState), InvC8 wf s →
      pendingCount wf s = u → readyIdx wf s.completed s.queue = k →
      ∃ fuel r, runLoop registry wf input fuel s = some r := by
  intro u
  induction u using Nat.strong_induction_on with
  | _ u ihu =>
    intro k
    induction k using Nat.strong_induction_on with
    | _ k ihk =>
      intro s hinv hu hk
      rcases stepLoop_c8 registry wf input s rank hrank hfrom hto hinv with
        ⟨hq0, hstep⟩ | ⟨msg, sf, hstep⟩ | ⟨sn, hstep, hinvn, hm⟩
      · exact ⟨1, RunResult.ok s, by simp [runLoop, hstep]⟩
      · exact ⟨1, RunResult.failed msg sf, by simp [runLoop, hstep]⟩
      · rcases hm with hlt | ⟨hceq, hridx⟩
        · rw [hu] at hlt
          obtain ⟨fuel, r, hr⟩ := ihu (pendingCount wf sn) hlt
            (readyIdx wf sn.completed sn.queue) sn hinvn rfl rfl
          exact ⟨fuel + 1, r, by simp [runLoop, hstep, hr]⟩
        · rw [hk] at hridx
          have hpc : pendingCount wf sn = u := by
            rw [← hu]
            simp [pendingCount, hceq]
          obtain ⟨fuel, r, hr⟩ := ihk (readyIdx wf sn.completed sn.queue) hridx
            sn hinvn hpc rfl
          exact ⟨fuel + 1, r, by simp [runLoop, hstep, hr]⟩

lemma runLoop_ok_invariant (registry : String → Option Executor)
    (wf : WorkflowDefinition) (input : Obj) (rank : String → Nat)
    (hrank : ∀ e ∈ wf.edges, rank e.from_node < rank e.to_node)
    (hfrom : ∀ e ∈ wf.edges, e.from_node ∈ nodeIds wf)
    (hto : ∀ e ∈ wf.edges, e.to_node ∈ nodeIds wf) :
    ∀ (fuel : Nat) (s sf : LoopState), InvC8 wf s →
      runLoop registry wf input fuel s = some (RunResult.ok sf) →
      InvC8 wf sf ∧ sf.queue = [] := by
  intro fuel
  induction fuel with
  | zero =>
      intro s sf hinv hr
      simp [runLoop] at hr
  | succ fuel ih =>
      intro s sf hinv hr
      rcases stepLoop_c8 registry wf input s rank hrank hfrom hto hinv with
        ⟨hq0, hstep⟩ | ⟨msg, sf2, hstep⟩ | ⟨sn, hstep, hinvn, _⟩
      · simp only [runLoop, hstep, Option.some.injEq, RunResult.ok.injEq] at hr
        rw [← hr]
        exact ⟨hinv, hq0⟩
      · simp [runLoop, hstep] at hr
      · simp only [runLoop, hstep] at hr
        exact ih sn sf hinvn hr

lemma completed_all_of_empty_queue (wf : WorkflowDefinition) (rank : String → Nat)
    (hrank : ∀ e ∈ wf.edges, rank e.from_node < rank e.to_node)
    (hfrom : ∀ e ∈ wf.edges, e.from_node ∈ nodeIds wf)
    (s : LoopState) (hinv : InvC8 wf s) (hq : s.queue = []) :
    ∀ x ∈ nodeIds wf, x ∈ s.completed := by
  intro x hx
  by_contra hxc
  obtain ⟨y, hyq, _⟩ := ready_in_queue wf rank hrank hfrom s hinv x hx hxc
  rw [hq] at hyq
  cases hyq

/-- C8. For every acyclic workflow graph (witnessed by a rank function, with
unique node ids and declared edge endpoints, per the data-model invariants), the
requeue scheduling loop terminates — within some finite fuel it returns a result
for any input — and a run that exits normally (SUCCESS) has invoked each node's
executor exactly once: the invocation log equals the completed list, is
duplicate-free, and covers exactly the N declared node ids, so `completedNodes`
has size N (the code never skips nodes: condition expressions are not evaluated,
so the skipped count is always zero). -/
theorem c8_acyclic_scheduling (wf : WorkflowDefinition) (input : Obj) (t0 : Nat)
    (hacyc : ∃ rank : String → Nat, ∀ e ∈ wf.edges, rank e.from_node < rank e.to_node)
    (hids : (nodeIds wf).Nodup)
    (hends : ∀ e ∈ wf.edges, e.from_node ∈ nodeIds wf ∧ e.to_node ∈ nodeIds wf) :
    (∃ fuel r, runLoop builtinExecutors wf input fuel (initLoopState wf t0) = some r) ∧
    (∀ fuel s, runLoop builtinExecutors wf input fuel (initLoopState wf t0)
        = some (RunResult.ok s) →
      s.invoked = s.completed ∧ s.invoked.Nodup ∧
      (∀ nid, nid ∈ s.completed ↔ nid ∈ nodeIds wf) ∧
      s.completed.length = wf.nodes.length) := by
  obtain ⟨rank, hrank⟩ := hacyc
  have hfrom : ∀ e ∈ wf.edges, e.from_node ∈ nodeIds wf := fun e he => (hends e he).1
  have hto : ∀ e ∈ wf.edges, e.to_node ∈ nodeIds wf := fun e he => (hends e he).2
  have hinv0 : InvC8 wf (initLoopState wf t0) := by
    refine ⟨fun q hq => entry_mem_nodeIds hq, fun c hc => (nomatch hc),
      List.nodup_nil, rfl, ?_⟩
    intro x hx hxc hdeps
    have hdnil : dependenciesOf wf x = [] := by
      cases hd : dependenciesOf wf x with
      | nil => rfl
      | cons d ds =>
          have h2 := hdeps d (by rw [hd]; exact List.mem_cons_self _ _)
          cases h2
    have hnin : ¬ memStr (incomingIds wf) x = true := by
      intro hmem
      obtain ⟨e, he, hex⟩ := List.mem_map.mp ((memStr_iff _ _).mp hmem)
      have hein : e.from_node ∈ dependenciesOf wf x := by
        refine List.mem_map.mpr ⟨e, List.mem_filter.mpr ⟨he, ?_⟩, rfl⟩
        simp [hex]
      rw [hdnil] at hein
      cases hein
    obtain ⟨n, hn, hidn⟩ := List.mem_map.mp hx
    show x ∈ entryNodes wf
    refine List.mem_map.mpr ⟨n, List.mem_filter.mpr ⟨hn, ?_⟩, hidn⟩
    rw [hidn]
    have hb : memStr (incomingIds wf) x = false := by
      cases hb2 : memStr (incomingIds wf) x
      · rfl
      · exact absurd hb2 hnin
    simp [hb]
  constructor
  · exact runLoop_terminates_aux builtinExecutors wf input rank hrank hfrom hto
      (pendingCount wf (initLoopState wf t0))
      (readyIdx wf (initLoopState wf t0).completed (initLoopState wf t0).queue)
      (initLoopState wf t0) hinv0 rfl rfl
  · intro fuel s hr
    obtain ⟨hinvf, hqf⟩ := runLoop_ok_invariant builtinExecutors wf input rank hrank
      hfrom hto fuel _ s hinv0 hr
    obtain ⟨hq2, hcsub, hnd2, hik, hready2⟩ := hinvf
    have hall := completed_all_of_empty_queue wf rank hrank hfrom s
      ⟨hq2, hcsub, hnd2, hik, hready2⟩ hqf
    have hmemiff : ∀ nid, nid ∈ s.completed ↔ nid ∈ nodeIds wf :=
      fun nid => ⟨fun h => hcsub nid h, fun h => hall nid h⟩
    have hperm : s.completed.Perm (nodeIds wf) :=
      (List.perm_ext_iff_of_nodup hnd2 hids).mpr hmemiff
    refine ⟨hik, ?_, hmemiff, ?_⟩
    · rw [hik]
      exact hnd2
    · rw [hperm.length_eq]
      simp [nodeIds]

/-- A topological rank for the four-node chain. -/
def chainRank : String → Nat := fun nid =>
  if nid = "trigger" then 0
  else if nid = "connector" then 1
  else if nid = "agent" then 2
  else 3

/-- C8, witness: the four-node chain with empty input, its rank function
discharging the acyclicity hypothesis, id uniqueness and edge-endpoint
declaration checked by computation. -/
theorem c8_witness :
    (∀ e ∈ chainWf.edges, chainRank e.from_node < chainRank e.to_node) ∧
    (∃ fuel r, runLoop builtinExecutors chainWf [] fuel (initLoopState chainWf 0)
        = some r) ∧
    (∀ fuel s, runLoop builtinExecutors chainWf [] fuel (initLoopState chainWf 0)
        = some (RunResult.ok s) →
      s.invoked = s.completed ∧ s.invoked.Nodup ∧
      (∀ nid, nid ∈ s.completed ↔ nid ∈ nodeIds chainWf) ∧
      s.completed.length = chainWf.nodes.length) := by
  have h := c8_acyclic_scheduling chainWf [] 0 ⟨chainRank, by decide⟩
    (by decide) (by decide)
  exact ⟨by decide, h.1, h.2⟩

end AIFlowForge
